import Mathlib

/-!
# Verification of `env-lock` (`src/lib.rs`)

A shallow embedding of the `env_lock` crate: a process-wide environment
lock.  `lock_env` acquires a global mutex (ignoring poisoning), then for
each `(name, Option value)` pair snapshots the current value of `name`
(via `env::var(..).ok()`) and sets or removes the variable; the returned
`EnvGuard` restores every snapshot entry in order on drop, and the mutex
guard is released only after the restore loop finishes.

Two layers:
* a functional layer (`lockEnv`, `dropGuard`) for the snapshot/apply and
  restore logic acting on an environment `Env`;
* a small transition system (`Sys`, `Step`) for the locking protocol:
  mutex acquisition, fine-grained apply/restore steps, panic-driven drop,
  unlock, and mutex poisoning.
-/

namespace EnvLock

/-- A value stored in the OS environment table.  `env::var` returns
`Err(VarError::NotUnicode)` for a value that is not valid Unicode, so the
embedding distinguishes Unicode string values from non-Unicode ones. -/
inductive EnvValue where
  | str (s : String)
  | nonUnicode (bytes : List Nat)
deriving DecidableEq

/-- The process environment: a total map from variable names to an
optional stored value (`none` = unset). -/
def Env : Type := String → Option EnvValue

/-- `env::var(v).ok()`: the value of `v` as a `String`, `none` when the
variable is unset *or* its value is not valid Unicode. -/
def getVar (e : Env) (v : String) : Option String :=
  match e v with
  | some (EnvValue.str s) => some s
  | _ => none

/-- `env::set_var`. -/
def setVar (e : Env) (v : String) (val : String) : Env :=
  fun x => if x = v then some (EnvValue.str val) else e x

/-- `env::remove_var`. -/
def removeVar (e : Env) (v : String) : Env :=
  fun x => if x = v then none else e x

/-- The `if let Some(value) = new_value { set_var } else { remove_var }`
branch shared by `lock_env` and `EnvGuard::drop`. -/
def applyVar (e : Env) (v : String) : Option String → Env
  | some val => setVar e v val
  | none => removeVar e v

/-- The snapshot/apply loop of `lock_env`: for each `(variable, new_value)`
pair in input order, record `env::var(variable).ok()` and then set or
remove the variable.  Returns the `previous_values` vector (in input
order, as collected by the iterator) together with the mutated
environment. -/
def lockEnv : List (String × Option String) → Env → List (String × Option String) × Env
  | [], e => ([], e)
  | (v, d) :: rest, e =>
    let r := lockEnv rest (applyVar e v d)
    ((v, getVar e v) :: r.1, r.2)

/-- The restore loop of `EnvGuard::drop`: for each `(variable, value)`
entry of `previous_values` in order, set the variable back to `value` or
remove it when the snapshot recorded absence. -/
def dropGuard : List (String × Option String) → Env → Env
  | [], e => e
  | (v, pv) :: rest, e => dropGuard rest (applyVar e v pv)

/-- The value controlled by the *last* entry of an association list for a
given name, if any entry names it. -/
def lastAssoc {α : Type} : List (String × α) → String → Option α
  | [], _ => none
  | (v, a) :: rest, x =>
    match lastAssoc rest x with
    | some b => some b
    | none => if v = x then some a else none

/-! ## Pointwise characterization lemmas -/

theorem applyVar_point (e : Env) (v : String) (d : Option String) (x : String) :
    applyVar e v d x = if x = v then Option.map EnvValue.str d else e x := by
  cases d with
  | none => simp [applyVar, removeVar]
  | some val => simp [setVar, applyVar]

theorem applyVar_self (e : Env) (v : String) (d : Option String) :
    applyVar e v d v = Option.map EnvValue.str d := by
  simp [applyVar_point]

theorem applyVar_other (e : Env) (v : String) (d : Option String) (x : String)
    (h : x ≠ v) : applyVar e v d x = e x := by
  simp [applyVar_point, h]

/-- The restore loop is a left fold in which, at each name, the *last*
snapshot entry for that name determines the final value; names without an
entry are untouched. -/
theorem dropGuard_point (snap : List (String × Option String)) (e : Env) (x : String) :
    dropGuard snap e x =
      match lastAssoc snap x with
      | some pv => Option.map EnvValue.str pv
      | none => e x := by
  induction snap generalizing e with
  | nil => simp [dropGuard, lastAssoc]
  | cons p rest ih =>
    obtain ⟨v, pv⟩ := p
    show dropGuard rest (applyVar e v pv) x = _
    rw [ih]
    cases hrest : lastAssoc rest x with
    | some b => simp [lastAssoc, hrest]
    | none =>
      by_cases hx : v = x
      · subst hx
        simp [lastAssoc, hrest, applyVar_self]
      · have hx' : x ≠ v := fun h => hx h.symm
        simp [lastAssoc, hrest, hx, applyVar_other e v pv x hx']

/-- The environment produced by the apply loop of `lock_env`: at each
name, the *last* input pair for that name determines the value; names not
mentioned in the input are untouched. -/
theorem lockEnv_snd_point (V : List (String × Option String)) (E : Env) (x : String) :
    (lockEnv V E).2 x =
      match lastAssoc V x with
      | some d => Option.map EnvValue.str d
      | none => E x := by
  induction V generalizing E with
  | nil => simp [lockEnv, lastAssoc]
  | cons p rest ih =>
    obtain ⟨v, d⟩ := p
    show (lockEnv rest (applyVar E v d)).2 x = _
    rw [ih]
    cases hrest : lastAssoc rest x with
    | some b => simp [lastAssoc, hrest]
    | none =>
      by_cases hx : v = x
      · subst hx
        simp [lastAssoc, hrest, applyVar_self]
      · have hx' : x ≠ v := fun h => hx h.symm
        simp [lastAssoc, hrest, hx, applyVar_other E v d x hx']

theorem lockEnv_fst_names (V : List (String × Option String)) (E : Env) :
    (lockEnv V E).1.map Prod.fst = V.map Prod.fst := by
  induction V generalizing E with
  | nil => rfl
  | cons p rest ih =>
    obtain ⟨v, d⟩ := p
    show v :: ((lockEnv rest (applyVar E v d)).1.map Prod.fst) = v :: rest.map Prod.fst
    rw [ih]

theorem lockEnv_fst_length (V : List (String × Option String)) (E : Env) :
    (lockEnv V E).1.length = V.length := by
  have h := congrArg List.length (lockEnv_fst_names V E)
  simpa using h

theorem lockEnv_cons (v : String) (d : Option String)
    (rest : List (String × Option String)) (E : Env) :
    lockEnv ((v, d) :: rest) E =
      ((v, getVar E v) :: (lockEnv rest (applyVar E v d)).1,
        (lockEnv rest (applyVar E v d)).2) := rfl

/-- `lastAssoc` finds no entry exactly when the name is absent from the
list of names. -/
theorem lastAssoc_eq_none {α : Type} (l : List (String × α)) (x : String) :
    lastAssoc l x = none ↔ x ∉ l.map Prod.fst := by
  induction l with
  | nil => simp [lastAssoc]
  | cons p rest ih =>
    obtain ⟨v, a⟩ := p
    cases hrest : lastAssoc rest x with
    | some b =>
      simp only [lastAssoc, hrest, List.map_cons, List.mem_cons]
      constructor
      · intro h; exact absurd h (by simp)
      · intro h
        exact absurd (ih.mpr fun hm => h (Or.inr hm)) (by simp [hrest])
    | none =>
      simp only [lastAssoc, hrest, List.map_cons, List.mem_cons]
      by_cases hv : v = x
      · simp [hv]
      · simp only [if_neg hv]
        have hx : x ∉ rest.map Prod.fst := ih.mp hrest
        constructor
        · rintro _ (hc | hc)
          · exact hv hc.symm
          · exact hx hc
        · intro _
          trivial

/-- The snapshot vector, entry by entry: the `i`-th entry pairs the `i`-th
input name with the value that name has *after the first `i` pairs have
been applied* (so only a first occurrence of a name snapshots its true
pre-acquisition value). -/
theorem lockEnv_fst_getElem (V : List (String × Option String)) (E : Env) (i : Nat) :
    (lockEnv V E).1[i]? =
      (V[i]?).map fun p => (p.1, getVar (lockEnv (V.take i) E).2 p.1) := by
  induction V generalizing E i with
  | nil => simp [lockEnv]
  | cons p rest ih =>
    obtain ⟨v, d⟩ := p
    cases i with
    | zero =>
      show ((v, getVar E v) :: (lockEnv rest (applyVar E v d)).1)[0]? = _
      simp [lockEnv]
    | succ j =>
      show ((v, getVar E v) :: (lockEnv rest (applyVar E v d)).1)[j + 1]? = _
      rw [List.getElem?_cons_succ, ih, List.getElem?_cons_succ, List.take_succ_cons]
      rfl

/-! ## The locking protocol

The mutex/guard structure of `lock_env` and `EnvGuard`, as a transition
system.  Each thread runs the protocol: call `lock_env` (block on
`ENV_MUTEX`, then apply the variable list pair by pair while building the
snapshot), run the critical section (which may end in a panic — the
unwind still invokes `EnvGuard::drop`), restore the snapshot entry by
entry, and finally release the mutex guard.  Rust drops the `guard` field
of `EnvGuard` only after the `Drop::drop` body has finished, so the
unlock transition is enabled only when the restore list is exhausted.  A
holder that exits by panic marks the mutex poisoned on release;
`lock_env` acquires regardless of the poison flag
(`unwrap_or_else(|error| error.into_inner())`). -/

/-- The phase of one thread in the locking protocol. -/
inductive Phase where
  | ready (vars : List (String × Option String)) (panics : Bool)
  | applying (remaining snap : List (String × Option String)) (panics : Bool)
  | critical (snap : List (String × Option String)) (panics : Bool)
  | restoring (remaining : List (String × Option String)) (panicked : Bool)
  | done (panicked : Bool)
deriving DecidableEq

/-- Global state: who holds `ENV_MUTEX` (if anyone), the process
environment, every thread's phase, and the mutex poison flag. -/
structure Sys where
  lock : Option Nat
  env : Env
  phase : Nat → Phase
  poisoned : Bool

/-- Update one thread's phase. -/
def updPhase (f : Nat → Phase) (t : Nat) (ph : Phase) : Nat → Phase :=
  fun u => if u = t then ph else f u

/-- One transition of the locking protocol. -/
inductive Step : Sys → Sys → Prop where
  /-- `ENV_MUTEX.lock()` returns: only possible while no thread holds the
  lock, and independent of the poison flag. -/
  | acquire (s : Sys) (t : Nat) (vars : List (String × Option String)) (p : Bool)
      (hl : s.lock = none) (ht : s.phase t = Phase.ready vars p) :
      Step s ⟨some t, s.env, updPhase s.phase t (Phase.applying vars [] p), s.poisoned⟩
  /-- One iteration of the snapshot/apply loop in `lock_env`. -/
  | applyOne (s : Sys) (t : Nat) (v : String) (d : Option String)
      (rest snap : List (String × Option String)) (p : Bool)
      (ht : s.phase t = Phase.applying ((v, d) :: rest) snap p) :
      Step s ⟨s.lock, applyVar s.env v d,
        updPhase s.phase t (Phase.applying rest (snap ++ [(v, getVar s.env v)]) p),
        s.poisoned⟩
  /-- `lock_env` returns the guard; the critical section begins. -/
  | enter (s : Sys) (t : Nat) (snap : List (String × Option String)) (p : Bool)
      (ht : s.phase t = Phase.applying [] snap p) :
      Step s ⟨s.lock, s.env, updPhase s.phase t (Phase.critical snap p), s.poisoned⟩
  /-- The critical section ends — by normal return or by panic unwind —
  and either way `EnvGuard::drop` begins. -/
  | exitSection (s : Sys) (t : Nat) (snap : List (String × Option String)) (p : Bool)
      (ht : s.phase t = Phase.critical snap p) :
      Step s ⟨s.lock, s.env, updPhase s.phase t (Phase.restoring snap p), s.poisoned⟩
  /-- One iteration of the restore loop in `EnvGuard::drop`. -/
  | restoreOne (s : Sys) (t : Nat) (v : String) (pv : Option String)
      (rest : List (String × Option String)) (p : Bool)
      (ht : s.phase t = Phase.restoring ((v, pv) :: rest) p) :
      Step s ⟨s.lock, applyVar s.env v pv,
        updPhase s.phase t (Phase.restoring rest p), s.poisoned⟩
  /-- The `MutexGuard` field is dropped after the restore loop finishes;
  a panicking holder poisons the mutex. -/
  | unlock (s : Sys) (t : Nat) (p : Bool)
      (ht : s.phase t = Phase.restoring [] p) :
      Step s ⟨none, s.env, updPhase s.phase t (Phase.done p), s.poisoned || p⟩

/-- A thread is inside `lock_env`-to-release territory: it observes an
"Acquired" interval. -/
def Busy : Phase → Prop
  | Phase.ready _ _ => False
  | Phase.applying _ _ _ => True
  | Phase.critical _ _ => True
  | Phase.restoring _ _ => True
  | Phase.done _ => False

/-- Initial states: lock free, mutex unpoisoned, every thread yet to call
`lock_env`. -/
def Init (s : Sys) : Prop :=
  s.lock = none ∧ s.poisoned = false ∧ ∀ t, ∃ vars p, s.phase t = Phase.ready vars p

/-- Reachability along `Step`. -/
inductive Reaches (s0 : Sys) : Sys → Prop where
  | refl : Reaches s0 s0
  | tail (s' s'' : Sys) (h : Reaches s0 s') (hs : Step s' s'') : Reaches s0 s''

/-- The mutex invariant: any thread observing an Acquired interval is the
one recorded as holding the lock. -/
def MutexInv (s : Sys) : Prop := ∀ t, Busy (s.phase t) → s.lock = some t

theorem mutexInv_init (s : Sys) (h : Init s) : MutexInv s := by
  intro t hb
  obtain ⟨vars, p, hp⟩ := h.2.2 t
  rw [hp] at hb
  exact hb.elim

theorem mutexInv_step (s s' : Sys) (hinv : MutexInv s) (hs : Step s s') : MutexInv s' := by
  cases hs with
  | acquire t vars p hl ht =>
    intro u hb
    simp only [updPhase] at hb
    by_cases hu : u = t
    · rw [hu]
    · rw [if_neg hu] at hb
      have h2 := hinv u hb
      rw [hl] at h2
      exact absurd h2 (by simp)
  | applyOne t v d rest snap p ht =>
    intro u hb
    simp only [updPhase] at hb
    by_cases hu : u = t
    · subst hu
      exact hinv u (by rw [ht]; trivial)
    · rw [if_neg hu] at hb
      exact hinv u hb
  | enter t snap p ht =>
    intro u hb
    simp only [updPhase] at hb
    by_cases hu : u = t
    · subst hu
      exact hinv u (by rw [ht]; trivial)
    · rw [if_neg hu] at hb
      exact hinv u hb
  | exitSection t snap p ht =>
    intro u hb
    simp only [updPhase] at hb
    by_cases hu : u = t
    · subst hu
      exact hinv u (by rw [ht]; trivial)
    · rw [if_neg hu] at hb
      exact hinv u hb
  | restoreOne t v pv rest p ht =>
    intro u hb
    simp only [updPhase] at hb
    by_cases hu : u = t
    · subst hu
      exact hinv u (by rw [ht]; trivial)
    · rw [if_neg hu] at hb
      exact hinv u hb
  | unlock t p ht =>
    intro u hb
    simp only [updPhase] at hb
    by_cases hu : u = t
    · rw [if_pos hu] at hb
      exact hb.elim
    · rw [if_neg hu] at hb
      have h2 := hinv u hb
      have h3 := hinv t (by rw [ht]; trivial)
      rw [h3] at h2
      have : t = u := by injection h2
      exact absurd this.symm hu

theorem mutexInv_reaches (s0 s : Sys) (hi : Init s0) (hr : Reaches s0 s) :
    MutexInv s := by
  induction hr with
  | refl => exact mutexInv_init s0 hi
  | tail s' s'' h hs ih => exact mutexInv_step s' s'' ih hs

/-! ## Concrete states used by witnesses -/

/-- An environment with every variable unset. -/
def env0 : Env := fun _ => none

/-- The environment of test `reset_on_panic`: `X = "default"`. -/
def envDefault : Env :=
  fun x => if x = "X" then some (EnvValue.str "default") else none

/-- An environment in which `X` holds a non-Unicode value. -/
def envNonU : Env :=
  fun x => if x = "X" then some (EnvValue.nonUnicode [255]) else none

/-- Thread 0 is about to call `lock_env [("X", Some "panicked"))]` and
will panic in its critical section; all other threads stay idle. -/
def phase0 : Nat → Phase :=
  fun t => if t = 0 then Phase.ready [("X", some "panicked")] true
    else Phase.ready [] false

def sys0 : Sys := ⟨none, env0, phase0, false⟩

def sys1 : Sys :=
  ⟨some 0, sys0.env,
    updPhase sys0.phase 0 (Phase.applying [("X", some "panicked")] [] true),
    sys0.poisoned⟩

/-- Thread 0 holds the lock, has finished its restore loop, and is about
to drop the mutex guard. -/
def sysRestoring : Sys :=
  ⟨some 0, env0,
    fun t => if t = 0 then Phase.restoring [] false else Phase.ready [] false,
    false⟩

def sysDone : Sys :=
  ⟨none, sysRestoring.env, updPhase sysRestoring.phase 0 (Phase.done false),
    sysRestoring.poisoned || false⟩

/-- Thread 0 holds the lock inside a critical section that will panic. -/
def sysCritical : Sys :=
  ⟨some 0, env0,
    fun t => if t = 0 then Phase.critical [("X", none)] true else Phase.ready [] false,
    false⟩

/-- The lock is free but poisoned by an earlier panicking holder. -/
def sysPoisoned : Sys := ⟨none, env0, phase0, true⟩

theorem sys0_init : Init sys0 := by
  refine ⟨rfl, rfl, fun t => ?_⟩
  by_cases h : t = 0
  · exact ⟨[("X", some "panicked")], true, by rw [h]; rfl⟩
  · refine ⟨[], false, ?_⟩
    show phase0 t = Phase.ready [] false
    unfold phase0
    rw [if_neg h]

theorem reach01 : Reaches sys0 sys1 :=
  Reaches.tail sys0 sys1 Reaches.refl
    (Step.acquire sys0 0 [("X", some "panicked")] true rfl rfl)

/-! ## The claims -/

/-- C1 (counterexample): the round-trip restoration claim is false as
stated for arbitrary variable collections: with the duplicate input
`[("X", some "a"), ("X", some "b")]` on an environment where `X` is
unset, acquire followed by guard release leaves `X = "a"` (the second
occurrence's snapshot, taken after the first pair was applied, is
restored last), not unset as it was initially. -/
theorem c1_restore_counterexample :
    dropGuard (lockEnv [("X", some "a"), ("X", some "b")] env0).1
      (lockEnv [("X", some "a"), ("X", some "b")] env0).2 "X" ≠ env0 "X" := by
  decide

/-- C1 (amended): round-trip restoration holds for every collection `V`
whose names are pairwise distinct and whose named variables are, before
acquisition, each either unset or set to a valid Unicode string:
`acquire(V)` followed by guard release returns the environment exactly to
its initial state at every name. -/
theorem c1_restore_roundtrip (V : List (String × Option String)) (E : Env)
    (hnd : (V.map Prod.fst).Nodup)
    (hstr : ∀ p ∈ V, ∀ b, E p.1 ≠ some (EnvValue.nonUnicode b)) (x : String) :
    dropGuard (lockEnv V E).1 (lockEnv V E).2 x = E x := by
  induction V generalizing E with
  | nil => rfl
  | cons q rest ih =>
    obtain ⟨v, d⟩ := q
    rw [List.map_cons, List.nodup_cons] at hnd
    obtain ⟨hv_rest, hnd2⟩ := hnd
    have hstr2 : ∀ p ∈ rest, ∀ b, applyVar E v d p.1 ≠ some (EnvValue.nonUnicode b) := by
      intro p hp b
      have hne : p.1 ≠ v := by
        intro h
        have hm : p.1 ∈ rest.map Prod.fst := List.mem_map_of_mem Prod.fst hp
        rw [h] at hm
        exact hv_rest hm
      rw [applyVar_other E v d p.1 hne]
      exact hstr p (List.mem_cons_of_mem _ hp) b
    have key := ih (applyVar E v d) hnd2 hstr2
    show dropGuard (lockEnv rest (applyVar E v d)).1
      (applyVar (lockEnv rest (applyVar E v d)).2 v (getVar E v)) x = E x
    rw [dropGuard_point]
    cases hla : lastAssoc (lockEnv rest (applyVar E v d)).1 x with
    | some b =>
      rw [dropGuard_point, hla] at key
      have hmem : x ∈ (lockEnv rest (applyVar E v d)).1.map Prod.fst := by
        by_contra hc
        rw [(lastAssoc_eq_none _ x).mpr hc] at hla
        simp at hla
      rw [lockEnv_fst_names] at hmem
      have hxv : x ≠ v := by
        intro h
        exact hv_rest (h ▸ hmem)
      rw [key, applyVar_other E v d x hxv]
    | none =>
      by_cases hxv : x = v
      · subst hxv
        rw [applyVar_self]
        have hb := hstr (x, d) (List.mem_cons_self _ _)
        cases hEx : E x with
        | none => simp [getVar, hEx]
        | some val =>
          cases val with
          | str s2 => simp [getVar, hEx]
          | nonUnicode b2 => exact absurd hEx (hb b2)
      · rw [applyVar_other _ v _ x hxv]
        rw [dropGuard_point, hla] at key
        rw [key, applyVar_other E v d x hxv]

/-- C1 (witness): a concrete instance of the amended round trip:
setting the single unset variable `X` and releasing leaves `X` unset. -/
theorem c1_witness :
    ([("X", (some "hello" : Option String))].map Prod.fst).Nodup ∧
    dropGuard (lockEnv [("X", some "hello")] env0).1
      (lockEnv [("X", some "hello")] env0).2 "X" = env0 "X" :=
  ⟨by decide,
    c1_restore_roundtrip [("X", some "hello")] env0 (by decide)
      (fun p hp b hc => Option.noConfusion hc) "X"⟩

/-- C2: `lock_env` processes the pairs in input order: the snapshot has
one entry per input pair, the `i`-th entry pairs the `i`-th input name
with the value that name has in the environment obtained by applying the
first `i` pairs (reading before writing), and after acquisition every
name occurring in the input holds the desired value of its last
occurrence. -/
theorem c2_acquire_semantics (V : List (String × Option String)) (E : Env) :
    (lockEnv V E).1.length = V.length ∧
    (∀ i, (lockEnv V E).1[i]? =
      (V[i]?).map fun p => (p.1, getVar (lockEnv (V.take i) E).2 p.1)) ∧
    (∀ v d, lastAssoc V v = some d →
      (lockEnv V E).2 v = Option.map EnvValue.str d) := by
  refine ⟨lockEnv_fst_length V E, fun i => lockEnv_fst_getElem V E i, fun v d h => ?_⟩
  rw [lockEnv_snd_point, h]

/-- C2 (witness): with input `[("A", Some "1"), ("A", None)]` the last
occurrence of `A` is the unset marker, and after acquisition `A` is
unset. -/
theorem c2_witness :
    lastAssoc [("A", some "1"), ("A", (none : Option String))] "A" = some none ∧
    (lockEnv [("A", some "1"), ("A", none)] env0).2 "A" =
      Option.map EnvValue.str none :=
  ⟨by decide, (c2_acquire_semantics _ env0).2.2 "A" none (by decide)⟩

/-- C3: `EnvGuard::drop` iterates the snapshot in order (the head entry
is restored first), the net effect at each name is determined by the last
snapshot entry for that name (names without an entry are untouched), and
the only transition that frees the lock token is the guard-field drop of
a thread whose restore list is already exhausted. -/
theorem c3_release_semantics :
    (∀ (v : String) (pv : Option String) (rest : List (String × Option String)) (e : Env),
      dropGuard ((v, pv) :: rest) e = dropGuard rest (applyVar e v pv)) ∧
    (∀ (snap : List (String × Option String)) (e : Env) (x : String),
      dropGuard snap e x =
        match lastAssoc snap x with
        | some pv => Option.map EnvValue.str pv
        | none => e x) ∧
    (∀ s s', Step s s' → s.lock ≠ none → s'.lock = none →
      ∃ t p, s.phase t = Phase.restoring [] p ∧ s'.phase t = Phase.done p) := by
  refine ⟨fun v pv rest e => rfl, dropGuard_point, fun s s' hs hne hnone => ?_⟩
  cases hs with
  | acquire t vars p hl ht => exact absurd hl hne
  | applyOne t v d rest snap p ht => exact absurd hnone hne
  | enter t snap p ht => exact absurd hnone hne
  | exitSection t snap p ht => exact absurd hnone hne
  | restoreOne t v pv rest p ht => exact absurd hnone hne
  | unlock t p ht => exact ⟨t, p, ht, by simp [updPhase]⟩

/-- C3 (witness): a concrete unlock transition: thread 0, holding the
lock with its restore list exhausted, drops the mutex guard. -/
theorem c3_witness :
    ∃ t p, sysRestoring.phase t = Phase.restoring [] p ∧
      sysDone.phase t = Phase.done p :=
  c3_release_semantics.2.2 sysRestoring sysDone
    (Step.unlock sysRestoring 0 false rfl) (by decide) rfl

/-- C4: mutual exclusion: in every state reachable from an initial
state, at most one thread observes an "Acquired" interval (is anywhere
between mutex acquisition and mutex release), and a thread still waiting
in `lock_env` can enter only when no thread holds the lock token. -/
theorem c4_mutual_exclusion (s0 s : Sys) (hi : Init s0) (hr : Reaches s0 s) :
    (∀ t u, Busy (s.phase t) → Busy (s.phase u) → t = u) ∧
    (∀ s' t vars p, Step s s' → s.phase t = Phase.ready vars p →
      Busy (s'.phase t) → s.lock = none) := by
  have hinv := mutexInv_reaches s0 s hi hr
  constructor
  · intro t u hbt hbu
    have h1 := hinv t hbt
    have h2 := hinv u hbu
    rw [h1] at h2
    exact Option.some.inj h2
  · intro s' t vars p hs ht hb
    cases hs with
    | acquire t2 vars2 p2 hl2 ht2 => exact hl2
    | applyOne t2 v d rest snap p2 ht2 =>
      simp only [updPhase] at hb
      by_cases hu : t = t2
      · rw [hu] at ht
        rw [ht] at ht2
        simp at ht2
      · rw [if_neg hu, ht] at hb
        exact hb.elim
    | enter t2 snap p2 ht2 =>
      simp only [updPhase] at hb
      by_cases hu : t = t2
      · rw [hu] at ht
        rw [ht] at ht2
        simp at ht2
      · rw [if_neg hu, ht] at hb
        exact hb.elim
    | exitSection t2 snap p2 ht2 =>
      simp only [updPhase] at hb
      by_cases hu : t = t2
      · rw [hu] at ht
        rw [ht] at ht2
        simp at ht2
      · rw [if_neg hu, ht] at hb
        exact hb.elim
    | restoreOne t2 v pv rest p2 ht2 =>
      simp only [updPhase] at hb
      by_cases hu : t = t2
      · rw [hu] at ht
        rw [ht] at ht2
        simp at ht2
      · rw [if_neg hu, ht] at hb
        exact hb.elim
    | unlock t2 p2 ht2 =>
      simp only [updPhase] at hb
      by_cases hu : t = t2
      · rw [if_pos hu] at hb
        exact hb.elim
      · rw [if_neg hu, ht] at hb
        exact hb.elim

/-- C4 (witness): in the reachable state in which thread 0 has entered
`lock_env`, any two busy threads coincide (both are thread 0), and the
acquisition step that got it there required a free lock. -/
theorem c4_witness : (0 : Nat) = 0 ∧ sys0.lock = none :=
  ⟨(c4_mutual_exclusion sys0 sys1 sys0_init reach01).1 0 0 (by trivial) (by trivial),
    (c4_mutual_exclusion sys0 sys0 sys0_init Reaches.refl).2 sys1 0
      [("X", some "panicked")] true
      (Step.acquire sys0 0 [("X", some "panicked")] true rfl rfl) rfl (by trivial)⟩

/-- C5: panic safety: a thread whose critical section ends by panic still
enters the guard's drop (leaving the environment as the panic found it),
its restore loop can always proceed and finishes with the lock released,
any thread can then acquire a free lock, and in the concrete scenario of
the spec restoring after a panic returns `X` to `"default"` after which a
new acquisition sets `X = "very calm"`. -/
theorem c5_panic_safety :
    (∀ (s : Sys) (t : Nat) (snap : List (String × Option String)),
      s.phase t = Phase.critical snap true →
      ∃ s', Step s s' ∧ s'.phase t = Phase.restoring snap true ∧ s'.env = s.env) ∧
    (∀ (s : Sys) (t : Nat) (v : String) (pv : Option String)
      (rest : List (String × Option String)),
      s.phase t = Phase.restoring ((v, pv) :: rest) true →
      ∃ s', Step s s' ∧ s'.phase t = Phase.restoring rest true ∧
        s'.env = applyVar s.env v pv) ∧
    (∀ (s : Sys) (t : Nat), s.phase t = Phase.restoring [] true →
      ∃ s', Step s s' ∧ s'.lock = none ∧ s'.phase t = Phase.done true) ∧
    (∀ (s : Sys) (u : Nat) (vars : List (String × Option String)) (p : Bool),
      s.lock = none → s.phase u = Phase.ready vars p →
      ∃ s', Step s s' ∧ s'.lock = some u ∧ s'.phase u = Phase.applying vars [] p) ∧
    dropGuard (lockEnv [("X", some "panicked")] envDefault).1
      (lockEnv [("X", some "panicked")] envDefault).2 "X" =
        some (EnvValue.str "default") ∧
    (lockEnv [("X", some "very calm")] envDefault).2 "X" =
      some (EnvValue.str "very calm") := by
  refine ⟨fun s t snap h => ?_, fun s t v pv rest h => ?_, fun s t h => ?_,
    fun s u vars p hl hr => ?_, by decide, by decide⟩
  · exact ⟨_, Step.exitSection s t snap true h, by simp [updPhase], rfl⟩
  · exact ⟨_, Step.restoreOne s t v pv rest true h, by simp [updPhase], rfl⟩
  · exact ⟨_, Step.unlock s t true h, rfl, by simp [updPhase]⟩
  · exact ⟨_, Step.acquire s u vars p hl hr, rfl, by simp [updPhase]⟩

/-- C5 (witness): thread 0, panicking inside its critical section, still
steps into the restore phase with the environment untouched by the
unwind itself. -/
theorem c5_witness :
    ∃ s', Step sysCritical s' ∧
      s'.phase 0 = Phase.restoring [("X", (none : Option String))] true ∧
      s'.env = sysCritical.env :=
  c5_panic_safety.1 sysCritical 0 [("X", none)] rfl

/-- C6: restoration precedes unlock: in any reachable state in which the
lock token is free no thread is mid-session (so no thread can observe a
lock-free-but-unrestored window); the only transition that frees the lock
is the guard drop of a thread whose restore list is exhausted, and that
transition does not touch the environment; and a thread that has finished
its guard drop never re-enters it (restoration happens at most once per
guard). -/
theorem c6_restore_before_unlock :
    (∀ s0 s, Init s0 → Reaches s0 s → s.lock = none → ∀ t, ¬ Busy (s.phase t)) ∧
    (∀ s s', Step s s' → s'.lock = none →
      s.lock = none ∨ ∃ t p, s.phase t = Phase.restoring [] p ∧
        s'.phase t = Phase.done p ∧ s'.env = s.env) ∧
    (∀ s s' t p, Step s s' → s.phase t = Phase.done p → s'.phase t = Phase.done p) := by
  refine ⟨?_, ?_, ?_⟩
  · intro s0 s hi hr hl t hb
    have h2 := mutexInv_reaches s0 s hi hr t hb
    rw [hl] at h2
    exact Option.noConfusion h2
  · intro s s' hs hnone
    cases hs with
    | acquire t vars p hl ht => exact Option.noConfusion hnone
    | applyOne t v d rest snap p ht => exact Or.inl hnone
    | enter t snap p ht => exact Or.inl hnone
    | exitSection t snap p ht => exact Or.inl hnone
    | restoreOne t v pv rest p ht => exact Or.inl hnone
    | unlock t p ht => exact Or.inr ⟨t, p, ht, by simp [updPhase], rfl⟩
  · intro s s' t p hs ht
    cases hs with
    | acquire t2 vars2 p2 hl2 ht2 =>
      show updPhase s.phase t2 (Phase.applying vars2 [] p2) t = Phase.done p
      simp only [updPhase]
      by_cases hu : t = t2
      · rw [hu] at ht
        rw [ht] at ht2
        simp at ht2
      · rw [if_neg hu]
        exact ht
    | applyOne t2 v d rest snap p2 ht2 =>
      show updPhase s.phase t2
        (Phase.applying rest (snap ++ [(v, getVar s.env v)]) p2) t = Phase.done p
      simp only [updPhase]
      by_cases hu : t = t2
      · rw [hu] at ht
        rw [ht] at ht2
        simp at ht2
      · rw [if_neg hu]
        exact ht
    | enter t2 snap p2 ht2 =>
      show updPhase s.phase t2 (Phase.critical snap p2) t = Phase.done p
      simp only [updPhase]
      by_cases hu : t = t2
      · rw [hu] at ht
        rw [ht] at ht2
        simp at ht2
      · rw [if_neg hu]
        exact ht
    | exitSection t2 snap p2 ht2 =>
      show updPhase s.phase t2 (Phase.restoring snap p2) t = Phase.done p
      simp only [updPhase]
      by_cases hu : t = t2
      · rw [hu] at ht
        rw [ht] at ht2
        simp at ht2
      · rw [if_neg hu]
        exact ht
    | restoreOne t2 v pv rest p2 ht2 =>
      show updPhase s.phase t2 (Phase.restoring rest p2) t = Phase.done p
      simp only [updPhase]
      by_cases hu : t = t2
      · rw [hu] at ht
        rw [ht] at ht2
        simp at ht2
      · rw [if_neg hu]
        exact ht
    | unlock t2 p2 ht2 =>
      show updPhase s.phase t2 (Phase.done p2) t = Phase.done p
      simp only [updPhase]
      by_cases hu : t = t2
      · rw [hu] at ht
        rw [ht] at ht2
        simp at ht2
      · rw [if_neg hu]
        exact ht

/-- C6 (witness): the initial state has a free lock and, accordingly, no
busy thread. -/
theorem c6_witness : ¬ Busy (sys0.phase 0) :=
  c6_restore_before_unlock.1 sys0 sys0 sys0_init Reaches.refl rfl 0

/-- C7: lock-poisoning tolerance: acquisition in `lock_env` is enabled
under exactly the same conditions whether or not the mutex is poisoned —
with a poisoned mutex a waiting thread still acquires the lock and
proceeds into the snapshot/apply loop, with no error surfaced — and a
panicking holder does poison the mutex when it releases. -/
theorem c7_poison_tolerance :
    (∀ (s : Sys) (t : Nat) (vars : List (String × Option String)) (p : Bool),
      s.poisoned = true → s.lock = none → s.phase t = Phase.ready vars p →
      ∃ s', Step s s' ∧ s'.lock = some t ∧
        s'.phase t = Phase.applying vars [] p ∧ s'.poisoned = true) ∧
    (∀ (s : Sys) (t : Nat), s.phase t = Phase.restoring [] true →
      ∃ s', Step s s' ∧ s'.lock = none ∧ s'.poisoned = true) := by
  constructor
  · intro s t vars p hp hl ht
    refine ⟨_, Step.acquire s t vars p hl ht, rfl, by simp [updPhase], ?_⟩
    show s.poisoned = true
    exact hp
  · intro s t ht
    refine ⟨_, Step.unlock s t true ht, rfl, ?_⟩
    show (s.poisoned || true) = true
    simp

/-- C7 (witness): on a free but poisoned lock, thread 0's `lock_env`
call acquires anyway. -/
theorem c7_witness :
    ∃ s', Step sysPoisoned s' ∧ s'.lock = some 0 ∧
      s'.phase 0 = Phase.applying [("X", some "panicked")] [] true ∧
      s'.poisoned = true :=
  c7_poison_tolerance.1 sysPoisoned 0 [("X", some "panicked")] true rfl rfl rfl

/-- C8: duplicate-name resolution: the snapshot carries one entry per
input occurrence in input order (the `i`-th entry snapshots the value the
name has after the first `i` pairs were applied, so only a first
occurrence records the true pre-acquisition value), and restoration
iterates all entries in that same order, so the last snapshot entry for a
name determines its final restored value. -/
theorem c8_duplicate_names (V : List (String × Option String)) (E : Env) :
    ((lockEnv V E).1.map Prod.fst = V.map Prod.fst) ∧
    (∀ i, (lockEnv V E).1[i]? =
      (V[i]?).map fun p => (p.1, getVar (lockEnv (V.take i) E).2 p.1)) ∧
    (∀ (e : Env) (x : String) (pv : Option String),
      lastAssoc (lockEnv V E).1 x = some pv →
      dropGuard (lockEnv V E).1 e x = Option.map EnvValue.str pv) := by
  refine ⟨lockEnv_fst_names V E, fun i => lockEnv_fst_getElem V E i,
    fun e x pv h => ?_⟩
  rw [dropGuard_point, h]

/-- C8 (witness): the duplicate input `[("X", Some "a"), ("X", Some "b")]`
on an unset `X` produces the snapshot `[("X", None), ("X", Some "a")]`;
its last entry for `X` — the already-mutated value `"a"` — wins on
restoration. -/
theorem c8_witness :
    lastAssoc (lockEnv [("X", some "a"), ("X", some "b")] env0).1 "X" =
      some (some "a") ∧
    dropGuard (lockEnv [("X", some "a"), ("X", some "b")] env0).1
      (lockEnv [("X", some "a"), ("X", some "b")] env0).2 "X" =
      Option.map EnvValue.str (some "a") :=
  ⟨by decide, (c8_duplicate_names _ env0).2.2 _ "X" (some "a") (by decide)⟩

/-- C9 (implicit frame property): the snapshot has exactly one entry per
input pair (same length, same names in order), and any name not occurring
in the input is left untouched both by the acquire operation and by the
guard's restore loop. -/
theorem c9_frame (V : List (String × Option String)) (E e : Env) :
    ((lockEnv V E).1.length = V.length) ∧
    ((lockEnv V E).1.map Prod.fst = V.map Prod.fst) ∧
    (∀ x, x ∉ V.map Prod.fst →
      (lockEnv V E).2 x = E x ∧ dropGuard (lockEnv V E).1 e x = e x) := by
  refine ⟨lockEnv_fst_length V E, lockEnv_fst_names V E, fun x hx => ?_⟩
  constructor
  · rw [lockEnv_snd_point, (lastAssoc_eq_none V x).mpr hx]
  · have hx2 : x ∉ (lockEnv V E).1.map Prod.fst := by
      rw [lockEnv_fst_names]
      exact hx
    rw [dropGuard_point, (lastAssoc_eq_none _ x).mpr hx2]

/-- C9 (witness): locking `[("A", Some "1")]` neither reads nor writes
the unrelated name `B`, in acquisition or in restoration. -/
theorem c9_witness :
    "B" ∉ ([("A", (some "1" : Option String))].map Prod.fst) ∧
    (lockEnv [("A", some "1")] env0).2 "B" = env0 "B" ∧
    dropGuard (lockEnv [("A", some "1")] env0).1 envDefault "B" =
      envDefault "B" :=
  ⟨by decide, ((c9_frame _ env0 envDefault).2.2 "B" (by decide)).1,
    ((c9_frame _ env0 envDefault).2.2 "B" (by decide)).2⟩

/-- C10 (implicit): non-Unicode conflation: a variable whose
pre-acquisition value is set but not valid Unicode reads as `None`
through `env::var(..).ok()`, so `lock_env` snapshots it as absent exactly
as if it were unset, and the guard's restore therefore removes the
variable instead of restoring its original (set) value. -/
theorem c10_non_unicode (E : Env) (v : String) (bytes : List Nat)
    (d : Option String) (h : E v = some (EnvValue.nonUnicode bytes)) :
    getVar E v = none ∧
    (lockEnv [(v, d)] E).1 = [(v, none)] ∧
    dropGuard (lockEnv [(v, d)] E).1 (lockEnv [(v, d)] E).2 v = none ∧
    E v ≠ none := by
  have hg : getVar E v = none := by simp [getVar, h]
  refine ⟨hg, ?_, ?_, by rw [h]; exact fun hc => Option.noConfusion hc⟩
  · show ((v, getVar E v) :: (lockEnv [] (applyVar E v d)).1) = [(v, none)]
    rw [hg]
    rfl
  · rw [dropGuard_point]
    simp [lastAssoc, hg]

/-- C10 (witness): `X` holds the non-Unicode byte string `[255]`; after
acquire and release, `X` is unset even though it was set before. -/
theorem c10_witness :
    envNonU "X" = some (EnvValue.nonUnicode [255]) ∧
    getVar envNonU "X" = none ∧
    dropGuard (lockEnv [("X", some "v")] envNonU).1
      (lockEnv [("X", some "v")] envNonU).2 "X" = none :=
  ⟨by decide, (c10_non_unicode envNonU "X" [255] (some "v") (by decide)).1,
    (c10_non_unicode envNonU "X" [255] (some "v") (by decide)).2.2.1⟩

end EnvLock
